import Mathlib

/-!
Verification of the concurrent paginated-search engine in `star_wars.py`.

The program is an asyncio worker pool: `find_starship_rating` seeds an
`asyncio.Queue` with page numbers `0 .. MAX_PAGE`, spawns `max_concurrency`
`worker` tasks, awaits `queue.join()`, then enqueues one `None` sentinel per
worker and gathers the tasks, finally returning
`result_dict.get("hyperdrive_rating", None)`.

We embed the program as a labeled small-step transition system.  asyncio is
cooperative, so atomic blocks are delimited by `await` points in `worker`:

* `idle`      — top of the `while not found_event.is_set()` loop;
* `waiting`   — suspended in `asyncio.wait_for(queue.get(), timeout=0.5)`;
* `gotItem`   — the dequeue completed, the worker is about to resume
                (in asyncio the waking `put_nowait` and the worker's
                resumption are distinct scheduling slots);
* `fetching`  — suspended in `await fetch_page(session, page_number)`;
  the fetch completion runs the scan loop, the result write, the event set,
  `task_done` and the frontier logic in one atomic block.

The page source is an environment `env : Nat -> Option Page`:
`none` models `fetch_page` raising, `some d` a successful JSON response.
Per the interface boundary, the continuation URL is modeled already parsed
as `Page.next : Option Nat`.

`MAX_PAGE` is a module-level global in the source (`global MAX_PAGE`); it is
the `maxPage` field of the state, and `initState` receives its value at call
entry, mirroring how `find_starship_rating` seeds `range(0, MAX_PAGE+1)`.

Ghost fields (`enqHist`, `doneHist`, `writes`, `errlog`) record history for
stating properties; no guard of the program reads them.
-/

namespace StarWars

/-- One starship record of a result page: the fields `name` and
`hyperdrive_rating` read by the worker's scan loop. -/
structure ItemRecord where
  name : String
  rating : String
deriving DecidableEq

/-- A fetched page: `data["results"]` and the (already-parsed) `data["next"]`
continuation page number. -/
structure Page where
  results : List ItemRecord
  next : Option Nat
deriving DecidableEq

/-- A queue entry: a real page number, or the `None` shutdown sentinel. -/
inductive QItem where
  | page : Nat → QItem
  | sentinel : QItem
deriving DecidableEq

/-- Worker control state between `await` points. -/
inductive WStatus where
  | idle : WStatus
  | waiting : WStatus
  | gotItem : QItem → WStatus
  | fetching : Nat → WStatus
  | done : WStatus
deriving DecidableEq

/-- Coordinator control state: blocked in `queue.join()`, gathering the
worker tasks after sending sentinels, or returned. -/
inductive CStatus where
  | joinWait : CStatus
  | gathering : CStatus
  | finished : CStatus
deriving DecidableEq

/-- Global state of one `find_starship_rating` call.
`unfinished` is `asyncio.Queue._unfinished_tasks` (puts minus task_done
calls); `event` is `found_event`; `result` is
`result_dict.get("hyperdrive_rating")`; `maxPage` is the module global
`MAX_PAGE`.  `enqHist` lists every real page number ever put on the queue,
`doneHist` every page whose fetch completed (successfully or not),
`writes` counts assignments to `result_dict["hyperdrive_rating"]`, and
`errlog` the pages whose fetch failure was printed. -/
structure SysState where
  maxPage : Nat
  queue : List QItem
  unfinished : Nat
  event : Bool
  result : Option String
  workers : List WStatus
  coord : CStatus
  enqHist : List Nat
  doneHist : List Nat
  writes : Nat
  errlog : List Nat
deriving DecidableEq

/-- Python's `a.lower() == b.lower()` of line 43: lowercase every character
of both strings and compare. -/
def lowerEq (a b : String) : Bool :=
  a.data.map Char.toLower == b.data.map Char.toLower

/-- The scan of lines 42-48: the rating of the first item whose lowercased
name equals the lowercased target. -/
def findMatch (target : String) (items : List ItemRecord) : Option String :=
  (items.find? fun it => lowerEq it.name target).map (fun it => it.rating)

/-- Scheduler labels: which atomic block of which task runs. -/
inductive Label where
  | checkExit : Nat → Label
  | checkPass : Nat → Label
  | timeout : Nat → Label
  | dequeue : Nat → QItem → Label
  | sentinelExit : Nat → Label
  | initiate : Nat → Nat → Label
  | fetchFail : Nat → Nat → Label
  | fetchMatch : Nat → Nat → String → Label
  | fetchExhaust : Nat → Nat → Label
  | fetchFrontier : Nat → Nat → Nat → Label
  | fetchSkip : Nat → Nat → Label
  | joinRelease : Label
  | finish : Label
deriving DecidableEq

/-- The guarded small step: `some` next state when the label is enabled.
Each branch is the atomic block of `worker` (lines 22-64) or of
`find_starship_rating` (lines 93-101) it names. -/
def stepFn (env : Nat → Option Page) (target : String) (s : SysState) :
    Label → Option SysState
  | .checkExit w =>
    -- line 22: `while not found_event.is_set()` observed set: return.
    if s.workers[w]? = some .idle ∧ s.event = true then
      some { s with workers := s.workers.set w .done }
    else none
  | .checkPass w =>
    -- line 22 observed unset: enter `wait_for(queue.get(), 0.5)`.
    if s.workers[w]? = some .idle ∧ s.event = false then
      some { s with workers := s.workers.set w .waiting }
    else none
  | .timeout w =>
    -- lines 25-27: TimeoutError while the queue is empty: return, no task_done.
    if s.workers[w]? = some .waiting ∧ s.queue = [] then
      some { s with workers := s.workers.set w .done }
    else none
  | .dequeue w it =>
    -- line 24: the head item is handed to this worker.
    if s.workers[w]? = some .waiting ∧ s.queue.head? = some it then
      some { s with queue := s.queue.tail, workers := s.workers.set w (.gotItem it) }
    else none
  | .sentinelExit w =>
    -- lines 29-32: sentinel: task_done and return.
    if s.workers[w]? = some (.gotItem .sentinel) then
      some { s with unfinished := s.unfinished - 1, workers := s.workers.set w .done }
    else none
  | .initiate w p =>
    -- lines 34-35: the worker resumes and starts `fetch_page` (no event check).
    if s.workers[w]? = some (.gotItem (.page p)) then
      some { s with workers := s.workers.set w (.fetching p) }
    else none
  | .fetchFail w p =>
    -- lines 36-39: fetch raised: print, task_done, continue the loop.
    if s.workers[w]? = some (.fetching p) then
      match env p with
      | none =>
        some { s with unfinished := s.unfinished - 1,
                      workers := s.workers.set w .idle,
                      doneHist := s.doneHist ++ [p],
                      errlog := s.errlog ++ [p] }
      | some _ => none
    else none
  | .fetchMatch w p r =>
    -- lines 42-48: first matching starship: write rating, set event,
    -- task_done, return.
    if s.workers[w]? = some (.fetching p) then
      match env p with
      | none => none
      | some d =>
        if findMatch target d.results = some r then
          some { s with result := some r, event := true,
                        unfinished := s.unfinished - 1,
                        workers := s.workers.set w .done,
                        doneHist := s.doneHist ++ [p],
                        writes := s.writes + 1 }
        else none
    else none
  | .fetchExhaust w p =>
    -- lines 51-54: no match and no next page: set event, task_done, return.
    if s.workers[w]? = some (.fetching p) then
      match env p with
      | none => none
      | some d =>
        if findMatch target d.results = none ∧ d.next = none then
          some { s with event := true, unfinished := s.unfinished - 1,
                        workers := s.workers.set w .done,
                        doneHist := s.doneHist ++ [p] }
        else none
    else none
  | .fetchFrontier w p nx =>
    -- lines 55-64: no match, next present, page equals MAX_PAGE: advance
    -- MAX_PAGE unconditionally, enqueue the new page only if the event is
    -- still unset, task_done, continue.
    if s.workers[w]? = some (.fetching p) then
      match env p with
      | none => none
      | some d =>
        if findMatch target d.results = none ∧ d.next = some nx ∧ p = s.maxPage then
          if s.event = true then
            some { s with maxPage := s.maxPage + 1,
                          unfinished := s.unfinished - 1,
                          workers := s.workers.set w .idle,
                          doneHist := s.doneHist ++ [p] }
          else
            some { s with maxPage := s.maxPage + 1,
                          queue := s.queue ++ [.page nx],
                          workers := s.workers.set w .idle,
                          doneHist := s.doneHist ++ [p],
                          enqHist := s.enqHist ++ [nx] }
        else none
    else none
  | .fetchSkip w p =>
    -- lines 55, 64: no match, next present, page below MAX_PAGE: just
    -- task_done and continue.
    if s.workers[w]? = some (.fetching p) then
      match env p with
      | none => none
      | some d =>
        if findMatch target d.results = none ∧ d.next ≠ none ∧ p ≠ s.maxPage then
          some { s with unfinished := s.unfinished - 1,
                        workers := s.workers.set w .idle,
                        doneHist := s.doneHist ++ [p] }
        else none
    else none
  | .joinRelease =>
    -- lines 93-97: `await queue.join()` returns (unfinished = 0) and one
    -- sentinel per worker is put (each put increments unfinished).
    if s.coord = CStatus.joinWait ∧ s.unfinished = 0 then
      some { s with queue := s.queue ++ List.replicate s.workers.length .sentinel,
                    unfinished := s.workers.length,
                    coord := .gathering }
    else none
  | .finish =>
    -- lines 100-101: `gather` returns once every worker task is done.
    if s.coord = CStatus.gathering ∧ s.workers.all (fun x => x = .done) = true then
      some { s with coord := .finished }
    else none

/-- Initial state of one call: lines 74-88.  `maxPage` is the value of the
global `MAX_PAGE` at call entry; the queue is seeded with
`range(0, MAX_PAGE+1)`, each put incrementing `unfinished`; event, result
dict and queue objects are created fresh. -/
def initState (maxPage numWorkers : Nat) : SysState :=
  { maxPage := maxPage
    queue := (List.range (maxPage + 1)).map QItem.page
    unfinished := maxPage + 1
    event := false
    result := none
    workers := List.replicate numWorkers .idle
    coord := .joinWait
    enqHist := List.range (maxPage + 1)
    doneHist := []
    writes := 0
    errlog := [] }

/-- Run a finite schedule of labels; `none` if some label is not enabled. -/
def run (env : Nat → Option Page) (target : String) :
    SysState → List Label → Option SysState
  | s, [] => some s
  | s, l :: ls =>
    match stepFn env target s l with
    | none => none
    | some t => run env target t ls

/-- Inversion of one step: exactly which atomic block ran, its guard, and
the resulting state. -/
theorem step_shape {env : Nat → Option Page} {target : String} {s t : SysState} {l : Label}
    (h : stepFn env target s l = some t) :
    (∃ w, l = .checkExit w ∧ s.workers[w]? = some .idle ∧ s.event = true ∧
      t = { s with workers := s.workers.set w .done }) ∨
    (∃ w, l = .checkPass w ∧ s.workers[w]? = some .idle ∧ s.event = false ∧
      t = { s with workers := s.workers.set w .waiting }) ∨
    (∃ w, l = .timeout w ∧ s.workers[w]? = some .waiting ∧ s.queue = [] ∧
      t = { s with workers := s.workers.set w .done }) ∨
    (∃ w it, l = .dequeue w it ∧ s.workers[w]? = some .waiting ∧ s.queue.head? = some it ∧
      t = { s with queue := s.queue.tail, workers := s.workers.set w (.gotItem it) }) ∨
    (∃ w, l = .sentinelExit w ∧ s.workers[w]? = some (.gotItem .sentinel) ∧
      t = { s with unfinished := s.unfinished - 1, workers := s.workers.set w .done }) ∨
    (∃ w p, l = .initiate w p ∧ s.workers[w]? = some (.gotItem (.page p)) ∧
      t = { s with workers := s.workers.set w (.fetching p) }) ∨
    (∃ w p, l = .fetchFail w p ∧ s.workers[w]? = some (.fetching p) ∧ env p = none ∧
      t = { s with unfinished := s.unfinished - 1, workers := s.workers.set w .idle,
                   doneHist := s.doneHist ++ [p], errlog := s.errlog ++ [p] }) ∨
    (∃ w p r d, l = .fetchMatch w p r ∧ s.workers[w]? = some (.fetching p) ∧
      env p = some d ∧ findMatch target d.results = some r ∧
      t = { s with result := some r, event := true, unfinished := s.unfinished - 1,
                   workers := s.workers.set w .done, doneHist := s.doneHist ++ [p],
                   writes := s.writes + 1 }) ∨
    (∃ w p d, l = .fetchExhaust w p ∧ s.workers[w]? = some (.fetching p) ∧
      env p = some d ∧ findMatch target d.results = none ∧ d.next = none ∧
      t = { s with event := true, unfinished := s.unfinished - 1,
                   workers := s.workers.set w .done, doneHist := s.doneHist ++ [p] }) ∨
    (∃ w p nx d, l = .fetchFrontier w p nx ∧ s.workers[w]? = some (.fetching p) ∧
      env p = some d ∧ findMatch target d.results = none ∧ d.next = some nx ∧
      p = s.maxPage ∧ s.event = true ∧
      t = { s with maxPage := s.maxPage + 1, unfinished := s.unfinished - 1,
                   workers := s.workers.set w .idle, doneHist := s.doneHist ++ [p] }) ∨
    (∃ w p nx d, l = .fetchFrontier w p nx ∧ s.workers[w]? = some (.fetching p) ∧
      env p = some d ∧ findMatch target d.results = none ∧ d.next = some nx ∧
      p = s.maxPage ∧ s.event = false ∧
      t = { s with maxPage := s.maxPage + 1, queue := s.queue ++ [.page nx],
                   workers := s.workers.set w .idle, doneHist := s.doneHist ++ [p],
                   enqHist := s.enqHist ++ [nx] }) ∨
    (∃ w p d, l = .fetchSkip w p ∧ s.workers[w]? = some (.fetching p) ∧
      env p = some d ∧ findMatch target d.results = none ∧ d.next ≠ none ∧
      p ≠ s.maxPage ∧
      t = { s with unfinished := s.unfinished - 1, workers := s.workers.set w .idle,
                   doneHist := s.doneHist ++ [p] }) ∨
    (l = .joinRelease ∧ s.coord = CStatus.joinWait ∧ s.unfinished = 0 ∧
      t = { s with queue := s.queue ++ List.replicate s.workers.length .sentinel,
                   unfinished := s.workers.length, coord := .gathering }) ∨
    (l = .finish ∧ s.coord = CStatus.gathering ∧ s.workers.all (fun x => x = .done) = true ∧
      t = { s with coord := .finished }) := by
  cases l with
  | checkExit w =>
    simp only [stepFn, Option.ite_none_right_eq_some, Option.some.injEq] at h
    exact Or.inl ⟨w, rfl, h.1.1, h.1.2, h.2.symm⟩
  | checkPass w =>
    simp only [stepFn, Option.ite_none_right_eq_some, Option.some.injEq] at h
    exact Or.inr (Or.inl ⟨w, rfl, h.1.1, h.1.2, h.2.symm⟩)
  | timeout w =>
    simp only [stepFn, Option.ite_none_right_eq_some, Option.some.injEq] at h
    exact Or.inr (Or.inr (Or.inl ⟨w, rfl, h.1.1, h.1.2, h.2.symm⟩))
  | dequeue w it =>
    simp only [stepFn, Option.ite_none_right_eq_some, Option.some.injEq] at h
    exact Or.inr (Or.inr (Or.inr (Or.inl ⟨w, it, rfl, h.1.1, h.1.2, h.2.symm⟩)))
  | sentinelExit w =>
    simp only [stepFn, Option.ite_none_right_eq_some, Option.some.injEq] at h
    exact Or.inr (Or.inr (Or.inr (Or.inr (Or.inl ⟨w, rfl, h.1, h.2.symm⟩))))
  | initiate w p =>
    simp only [stepFn, Option.ite_none_right_eq_some, Option.some.injEq] at h
    exact Or.inr (Or.inr (Or.inr (Or.inr (Or.inr (Or.inl ⟨w, p, rfl, h.1, h.2.symm⟩)))))
  | fetchFail w p =>
    simp only [stepFn] at h
    split at h
    · split at h
      · simp only [Option.some.injEq] at h
        refine Or.inr (Or.inr (Or.inr (Or.inr (Or.inr (Or.inr (Or.inl ⟨w, p, rfl, ?_, ?_, h.symm⟩))))))
        · assumption
        · assumption
      · exact absurd h (by simp)
    · exact absurd h (by simp)
  | fetchMatch w p r =>
    simp only [stepFn] at h
    split at h
    · split at h
      · exact absurd h (by simp)
      · rename_i d henv
        simp only [Option.ite_none_right_eq_some, Option.some.injEq] at h
        refine Or.inr (Or.inr (Or.inr (Or.inr (Or.inr (Or.inr (Or.inr (Or.inl
          ⟨w, p, r, d, rfl, by assumption, henv, h.1, h.2.symm⟩)))))))
    · exact absurd h (by simp)
  | fetchExhaust w p =>
    simp only [stepFn] at h
    split at h
    · split at h
      · exact absurd h (by simp)
      · rename_i d henv
        simp only [Option.ite_none_right_eq_some, Option.some.injEq] at h
        refine Or.inr (Or.inr (Or.inr (Or.inr (Or.inr (Or.inr (Or.inr (Or.inr (Or.inl
          ⟨w, p, d, rfl, by assumption, henv, h.1.1, h.1.2, h.2.symm⟩))))))))
    · exact absurd h (by simp)
  | fetchFrontier w p nx =>
    simp only [stepFn] at h
    split at h
    · split at h
      · exact absurd h (by simp)
      · rename_i d henv
        split at h
        · rename_i hg
          split at h
          · rename_i hev
            simp only [Option.some.injEq] at h
            exact Or.inr (Or.inr (Or.inr (Or.inr (Or.inr (Or.inr (Or.inr (Or.inr (Or.inr (Or.inl
              ⟨w, p, nx, d, rfl, by assumption, henv, hg.1, hg.2.1, hg.2.2, hev, h.symm⟩)))))))))
          · rename_i hev
            simp only [Option.some.injEq] at h
            refine Or.inr (Or.inr (Or.inr (Or.inr (Or.inr (Or.inr (Or.inr (Or.inr (Or.inr (Or.inr (Or.inl
              ⟨w, p, nx, d, rfl, by assumption, henv, hg.1, hg.2.1, hg.2.2, ?_, h.symm⟩))))))))))
            exact Bool.not_eq_true s.event ▸ (by simpa using hev)
        · exact absurd h (by simp)
    · exact absurd h (by simp)
  | fetchSkip w p =>
    simp only [stepFn] at h
    split at h
    · split at h
      · exact absurd h (by simp)
      · rename_i d henv
        simp only [Option.ite_none_right_eq_some, Option.some.injEq] at h
        refine Or.inr (Or.inr (Or.inr (Or.inr (Or.inr (Or.inr (Or.inr (Or.inr (Or.inr (Or.inr (Or.inr (Or.inl
          ⟨w, p, d, rfl, by assumption, henv, h.1.1, h.1.2.1, h.1.2.2, h.2.symm⟩)))))))))))
    · exact absurd h (by simp)
  | joinRelease =>
    simp only [stepFn, Option.ite_none_right_eq_some, Option.some.injEq] at h
    exact Or.inr (Or.inr (Or.inr (Or.inr (Or.inr (Or.inr (Or.inr (Or.inr (Or.inr (Or.inr (Or.inr (Or.inr (Or.inl
      ⟨rfl, h.1.1, h.1.2, h.2.symm⟩))))))))))))
  | finish =>
    simp only [stepFn, Option.ite_none_right_eq_some, Option.some.injEq] at h
    exact Or.inr (Or.inr (Or.inr (Or.inr (Or.inr (Or.inr (Or.inr (Or.inr (Or.inr (Or.inr (Or.inr (Or.inr (Or.inr
      ⟨rfl, h.1.1, h.1.2, h.2.symm⟩))))))))))))

/-- A worker currently holds a dequeued, not-yet-`task_done` item. -/
def isHolding : WStatus → Bool
  | .gotItem _ => true
  | .fetching _ => true
  | _ => false

/-- 1 if the worker holds an item, else 0. -/
def wHold (st : WStatus) : Nat := if isHolding st then 1 else 0

/-- Number of workers holding a dequeued, not-yet-`task_done` item. -/
def heldCount : List WStatus → Nat
  | [] => 0
  | st :: ws => wHold st + heldCount ws

/-- Page numbers carried by a queue item (none for the sentinel). -/
def qPages : QItem → List Nat
  | .page p => [p]
  | .sentinel => []

/-- Page numbers of the real pages in the queue, in order. -/
def pageVals : List QItem → List Nat
  | [] => []
  | it :: q => qPages it ++ pageVals q

/-- Page number held by a worker, if any. -/
def wPages : WStatus → List Nat
  | .gotItem it => qPages it
  | .fetching p => [p]
  | _ => []

/-- Page numbers held by the workers. -/
def heldPages : List WStatus → List Nat
  | [] => []
  | st :: ws => wPages st ++ heldPages ws

/-- Labels whose atomic block calls `queue.task_done()`. -/
def isTaskDone : Label → Bool
  | .sentinelExit _ => true
  | .fetchFail _ _ => true
  | .fetchMatch _ _ _ => true
  | .fetchExhaust _ _ => true
  | .fetchFrontier _ _ _ => true
  | .fetchSkip _ _ => true
  | _ => false

/-- Labels whose atomic block completes a `queue.get()`. -/
def isDequeue : Label → Bool
  | .dequeue _ _ => true
  | _ => false

/-- Number of `task_done` calls in a schedule. -/
def countTaskDone (ls : List Label) : Nat := (ls.filter isTaskDone).length

/-- Number of completed dequeues in a schedule. -/
def countDequeue (ls : List Label) : Nat := (ls.filter isDequeue).length

/-- The worker, if any, whose atomic block a label runs. -/
def actor : Label → Option Nat
  | .checkExit w => some w
  | .checkPass w => some w
  | .timeout w => some w
  | .dequeue w _ => some w
  | .sentinelExit w => some w
  | .initiate w _ => some w
  | .fetchFail w _ => some w
  | .fetchMatch w _ _ => some w
  | .fetchExhaust w _ => some w
  | .fetchFrontier w _ _ => some w
  | .fetchSkip w _ => some w
  | .joinRelease => none
  | .finish => none

/-- Whether, per `env`, page `p` yields data containing a target match. -/
def matchesB (env : Nat → Option Page) (target : String) (p : Nat) : Bool :=
  match env p with
  | some d => (findMatch target d.results).isSome
  | none => false

theorem heldCount_append (a b : List WStatus) :
    heldCount (a ++ b) = heldCount a + heldCount b := by
  induction a with
  | nil => simp [heldCount]
  | cons st ws ih => simp [heldCount, ih, Nat.add_assoc]

theorem heldCount_set {ws : List WStatus} {w : Nat} {old : WStatus} (st : WStatus)
    (h : ws[w]? = some old) :
    heldCount (ws.set w st) + wHold old = heldCount ws + wHold st := by
  induction ws generalizing w with
  | nil => simp at h
  | cons a l ih =>
    cases w with
    | zero =>
      simp only [List.getElem?_cons_zero, Option.some.injEq] at h
      subst h
      simp [List.set, heldCount, Nat.add_comm, Nat.add_assoc, Nat.add_left_comm]
    | succ n =>
      simp only [List.getElem?_cons_succ] at h
      have := ih (w := n) h
      simp only [List.set, heldCount]
      omega

theorem heldPages_append (a b : List WStatus) :
    heldPages (a ++ b) = heldPages a ++ heldPages b := by
  induction a with
  | nil => simp [heldPages]
  | cons st ws ih => simp [heldPages, ih]

theorem heldPages_count_set {ws : List WStatus} {w : Nat} {old : WStatus} (st : WStatus)
    (v : Nat) (h : ws[w]? = some old) :
    (heldPages (ws.set w st)).count v + (wPages old).count v =
      (heldPages ws).count v + (wPages st).count v := by
  induction ws generalizing w with
  | nil => simp at h
  | cons a l ih =>
    cases w with
    | zero =>
      simp only [List.getElem?_cons_zero, Option.some.injEq] at h
      subst h
      simp [List.set, heldPages, List.count_append]
      omega
    | succ n =>
      simp only [List.getElem?_cons_succ] at h
      have := ih (w := n) h
      simp only [List.set, heldPages, List.count_append]
      omega

theorem holding_one_le {ws : List WStatus} {w : Nat} {st : WStatus}
    (h : ws[w]? = some st) (hh : isHolding st = true) : 1 ≤ heldCount ws := by
  induction ws generalizing w with
  | nil => simp at h
  | cons a l ih =>
    cases w with
    | zero =>
      simp only [List.getElem?_cons_zero, Option.some.injEq] at h
      subst h
      simp [heldCount, wHold, hh]
    | succ n =>
      simp only [List.getElem?_cons_succ] at h
      have := ih (w := n) h
      simp only [heldCount]
      omega

theorem heldCount_all_done {ws : List WStatus}
    (h : ws.all (fun x => x = .done) = true) : heldCount ws = 0 := by
  induction ws with
  | nil => rfl
  | cons a l ih =>
    simp only [List.all_cons, Bool.and_eq_true, decide_eq_true_eq] at h
    obtain ⟨h1, h2⟩ := h
    subst h1
    simp [heldCount, wHold, isHolding, ih h2]

theorem pageVals_append (a b : List QItem) :
    pageVals (a ++ b) = pageVals a ++ pageVals b := by
  induction a with
  | nil => simp [pageVals]
  | cons it q ih => simp [pageVals, ih]

theorem pageVals_replicate_sentinel (n : Nat) :
    pageVals (List.replicate n QItem.sentinel) = [] := by
  induction n with
  | zero => rfl
  | succ n ih => simp [List.replicate, pageVals, qPages, ih]

theorem pageVals_map_page (l : List Nat) : pageVals (l.map QItem.page) = l := by
  induction l with
  | nil => rfl
  | cons a t ih => simp [pageVals, qPages, ih]

theorem all_done_get {ws : List WStatus} (h : ws.all (fun x => x = .done) = true)
    {w : Nat} {st : WStatus} (hw : ws[w]? = some st) : st = .done := by
  induction ws generalizing w with
  | nil => simp at hw
  | cons a l ih =>
    simp only [List.all_cons, Bool.and_eq_true, decide_eq_true_eq] at h
    cases w with
    | zero =>
      simp only [List.getElem?_cons_zero, Option.some.injEq] at hw
      subst hw; exact h.1
    | succ n =>
      simp only [List.getElem?_cons_succ] at hw
      exact ih h.2 hw

theorem queue_cons_of_head {q : List QItem} {it : QItem} (h : q.head? = some it) :
    q = it :: q.tail := by
  cases q with
  | nil => simp at h
  | cons a t => simp_all

/-- Invariant: the queue's unfinished-task counter equals the number of
items still in the queue plus the number of items held by workers.  This is
the accurate increment/decrement pairing behind `join()`. -/
def UnfInv (s : SysState) : Prop :=
  s.unfinished = s.queue.length + heldCount s.workers

theorem unfInv_step {env : Nat → Option Page} {target : String} {s t : SysState} {l : Label}
    (h : stepFn env target s l = some t) (hs : UnfInv s) : UnfInv t := by
  rcases step_shape h with
    ⟨w, rfl, hw, he, rfl⟩ | ⟨w, rfl, hw, he, rfl⟩ | ⟨w, rfl, hw, hq, rfl⟩ |
    ⟨w, it, rfl, hw, hq, rfl⟩ | ⟨w, rfl, hw, rfl⟩ | ⟨w, p, rfl, hw, rfl⟩ |
    ⟨w, p, rfl, hw, henv, rfl⟩ | ⟨w, p, r, d, rfl, hw, henv, hf, rfl⟩ |
    ⟨w, p, d, rfl, hw, henv, hf, hn, rfl⟩ |
    ⟨w, p, nx, d, rfl, hw, henv, hf, hn, hp, he, rfl⟩ |
    ⟨w, p, nx, d, rfl, hw, henv, hf, hn, hp, he, rfl⟩ |
    ⟨w, p, d, rfl, hw, henv, hf, hn, hp, rfl⟩ |
    ⟨rfl, hc, hu, rfl⟩ | ⟨rfl, hc, ha, rfl⟩
  all_goals simp only [UnfInv] at hs ⊢
  · have hset := heldCount_set .done hw
    simp only [wHold, isHolding] at hset; simp at hset; omega
  · have hset := heldCount_set .waiting hw
    simp only [wHold, isHolding] at hset; simp at hset; omega
  · have hset := heldCount_set .done hw
    simp only [wHold, isHolding] at hset; simp at hset; omega
  · have hset := heldCount_set (.gotItem it) hw
    have hcons := queue_cons_of_head hq
    simp only [wHold, isHolding] at hset; simp at hset
    rw [hcons] at hs; simp only [List.length_cons] at hs
    omega
  · have hset := heldCount_set .done hw
    simp only [wHold, isHolding] at hset; simp at hset; omega
  · have hset := heldCount_set (.fetching p) hw
    simp only [wHold, isHolding] at hset; simp at hset; omega
  · have hset := heldCount_set .idle hw
    simp only [wHold, isHolding] at hset; simp at hset; omega
  · have hset := heldCount_set .done hw
    simp only [wHold, isHolding] at hset; simp at hset; omega
  · have hset := heldCount_set .done hw
    simp only [wHold, isHolding] at hset; simp at hset; omega
  · have hset := heldCount_set .idle hw
    simp only [wHold, isHolding] at hset; simp at hset; omega
  · have hset := heldCount_set .idle hw
    simp only [wHold, isHolding] at hset; simp at hset
    simp only [List.length_append, List.length_cons, List.length_nil]
    omega
  · have hset := heldCount_set .idle hw
    simp only [wHold, isHolding] at hset; simp at hset; omega
  · simp only [List.length_append, List.length_replicate]
    omega
  · exact hs

theorem held_delta_step {env : Nat → Option Page} {target : String} {s t : SysState} {l : Label}
    (h : stepFn env target s l = some t) :
    heldCount t.workers + (cond (isTaskDone l) 1 0) =
      heldCount s.workers + (cond (isDequeue l) 1 0) := by
  rcases step_shape h with
    ⟨w, rfl, hw, he, rfl⟩ | ⟨w, rfl, hw, he, rfl⟩ | ⟨w, rfl, hw, hq, rfl⟩ |
    ⟨w, it, rfl, hw, hq, rfl⟩ | ⟨w, rfl, hw, rfl⟩ | ⟨w, p, rfl, hw, rfl⟩ |
    ⟨w, p, rfl, hw, henv, rfl⟩ | ⟨w, p, r, d, rfl, hw, henv, hf, rfl⟩ |
    ⟨w, p, d, rfl, hw, henv, hf, hn, rfl⟩ |
    ⟨w, p, nx, d, rfl, hw, henv, hf, hn, hp, he, rfl⟩ |
    ⟨w, p, nx, d, rfl, hw, henv, hf, hn, hp, he, rfl⟩ |
    ⟨w, p, d, rfl, hw, henv, hf, hn, hp, rfl⟩ |
    ⟨rfl, hc, hu, rfl⟩ | ⟨rfl, hc, ha, rfl⟩
  all_goals simp only [isTaskDone, isDequeue, cond_true, cond_false]
  · have hset := heldCount_set .done hw
    simp only [wHold, isHolding] at hset; simp at hset; omega
  · have hset := heldCount_set .waiting hw
    simp only [wHold, isHolding] at hset; simp at hset; omega
  · have hset := heldCount_set .done hw
    simp only [wHold, isHolding] at hset; simp at hset; omega
  · have hset := heldCount_set (.gotItem it) hw
    simp only [wHold, isHolding] at hset; simp at hset; omega
  · have hset := heldCount_set .done hw
    simp only [wHold, isHolding] at hset; simp at hset; omega
  · have hset := heldCount_set (.fetching p) hw
    simp only [wHold, isHolding] at hset; simp at hset; omega
  · have hset := heldCount_set .idle hw
    simp only [wHold, isHolding] at hset; simp at hset; omega
  · have hset := heldCount_set .done hw
    simp only [wHold, isHolding] at hset; simp at hset; omega
  · have hset := heldCount_set .done hw
    simp only [wHold, isHolding] at hset; simp at hset; omega
  · have hset := heldCount_set .idle hw
    simp only [wHold, isHolding] at hset; simp at hset; omega
  · have hset := heldCount_set .idle hw
    simp only [wHold, isHolding] at hset; simp at hset; omega
  · have hset := heldCount_set .idle hw
    simp only [wHold, isHolding] at hset; simp at hset; omega

theorem event_mono_step {env : Nat → Option Page} {target : String} {s t : SysState} {l : Label}
    (h : stepFn env target s l = some t) (he : s.event = true) : t.event = true := by
  rcases step_shape h with
    ⟨w, rfl, hw, hev, rfl⟩ | ⟨w, rfl, hw, hev, rfl⟩ | ⟨w, rfl, hw, hq, rfl⟩ |
    ⟨w, it, rfl, hw, hq, rfl⟩ | ⟨w, rfl, hw, rfl⟩ | ⟨w, p, rfl, hw, rfl⟩ |
    ⟨w, p, rfl, hw, henv, rfl⟩ | ⟨w, p, r, d, rfl, hw, henv, hf, rfl⟩ |
    ⟨w, p, d, rfl, hw, henv, hf, hn, rfl⟩ |
    ⟨w, p, nx, d, rfl, hw, henv, hf, hn, hp, hev, rfl⟩ |
    ⟨w, p, nx, d, rfl, hw, henv, hf, hn, hp, hev, rfl⟩ |
    ⟨w, p, d, rfl, hw, henv, hf, hn, hp, rfl⟩ |
    ⟨rfl, hc, hu, rfl⟩ | ⟨rfl, hc, ha, rfl⟩ <;>
    first
      | exact he
      | rfl

/-- Invariant: any stored rating is the scan result of some page of the
environment. -/
def ResultInv (env : Nat → Option Page) (target : String) (s : SysState) : Prop :=
  ∀ r, s.result = some r → ∃ p d, env p = some d ∧ findMatch target d.results = some r

theorem resultInv_step {env : Nat → Option Page} {target : String} {s t : SysState} {l : Label}
    (h : stepFn env target s l = some t) (hs : ResultInv env target s) :
    ResultInv env target t := by
  rcases step_shape h with
    ⟨w, rfl, hw, hev, rfl⟩ | ⟨w, rfl, hw, hev, rfl⟩ | ⟨w, rfl, hw, hq, rfl⟩ |
    ⟨w, it, rfl, hw, hq, rfl⟩ | ⟨w, rfl, hw, rfl⟩ | ⟨w, p, rfl, hw, rfl⟩ |
    ⟨w, p, rfl, hw, henv, rfl⟩ | ⟨w, p, r, d, rfl, hw, henv, hf, rfl⟩ |
    ⟨w, p, d, rfl, hw, henv, hf, hn, rfl⟩ |
    ⟨w, p, nx, d, rfl, hw, henv, hf, hn, hp, hev, rfl⟩ |
    ⟨w, p, nx, d, rfl, hw, henv, hf, hn, hp, hev, rfl⟩ |
    ⟨w, p, d, rfl, hw, henv, hf, hn, hp, rfl⟩ |
    ⟨rfl, hc, hu, rfl⟩ | ⟨rfl, hc, ha, rfl⟩
  all_goals first
    | exact hs
    | (intro r0 hr0
       simp only [Option.some.injEq] at hr0
       exact ⟨p, d, henv, hr0 ▸ hf⟩)

theorem result_isSome_step {env : Nat → Option Page} {target : String} {s t : SysState}
    {l : Label} (h : stepFn env target s l = some t) (hs : s.result.isSome = true) :
    t.result.isSome = true := by
  rcases step_shape h with
    ⟨w, rfl, hw, hev, rfl⟩ | ⟨w, rfl, hw, hev, rfl⟩ | ⟨w, rfl, hw, hq, rfl⟩ |
    ⟨w, it, rfl, hw, hq, rfl⟩ | ⟨w, rfl, hw, rfl⟩ | ⟨w, p, rfl, hw, rfl⟩ |
    ⟨w, p, rfl, hw, henv, rfl⟩ | ⟨w, p, r, d, rfl, hw, henv, hf, rfl⟩ |
    ⟨w, p, d, rfl, hw, henv, hf, hn, rfl⟩ |
    ⟨w, p, nx, d, rfl, hw, henv, hf, hn, hp, hev, rfl⟩ |
    ⟨w, p, nx, d, rfl, hw, henv, hf, hn, hp, hev, rfl⟩ |
    ⟨w, p, d, rfl, hw, henv, hf, hn, hp, rfl⟩ |
    ⟨rfl, hc, hu, rfl⟩ | ⟨rfl, hc, ha, rfl⟩
  all_goals first
    | exact hs
    | rfl

/-- Invariant: the number of result writes equals the number of completed
fetches of pages whose data contains a match. -/
def WritesInv (env : Nat → Option Page) (target : String) (s : SysState) : Prop :=
  s.writes = (s.doneHist.filter (fun p => matchesB env target p)).length

theorem writesInv_step {env : Nat → Option Page} {target : String} {s t : SysState} {l : Label}
    (h : stepFn env target s l = some t) (hs : WritesInv env target s) :
    WritesInv env target t := by
  rcases step_shape h with
    ⟨w, rfl, hw, hev, rfl⟩ | ⟨w, rfl, hw, hev, rfl⟩ | ⟨w, rfl, hw, hq, rfl⟩ |
    ⟨w, it, rfl, hw, hq, rfl⟩ | ⟨w, rfl, hw, rfl⟩ | ⟨w, p, rfl, hw, rfl⟩ |
    ⟨w, p, rfl, hw, henv, rfl⟩ | ⟨w, p, r, d, rfl, hw, henv, hf, rfl⟩ |
    ⟨w, p, d, rfl, hw, henv, hf, hn, rfl⟩ |
    ⟨w, p, nx, d, rfl, hw, henv, hf, hn, hp, hev, rfl⟩ |
    ⟨w, p, nx, d, rfl, hw, henv, hf, hn, hp, hev, rfl⟩ |
    ⟨w, p, d, rfl, hw, henv, hf, hn, hp, rfl⟩ |
    ⟨rfl, hc, hu, rfl⟩ | ⟨rfl, hc, ha, rfl⟩
  all_goals simp only [WritesInv] at hs ⊢
  · exact hs
  · exact hs
  · exact hs
  · exact hs
  · exact hs
  · exact hs
  · have hm : matchesB env target p = false := by simp [matchesB, henv]
    simp [List.filter_append, hm, hs]
  · have hm : matchesB env target p = true := by simp [matchesB, henv, hf]
    simp [List.filter_append, hm, hs]
  · have hm : matchesB env target p = false := by simp [matchesB, henv, hf]
    simp [List.filter_append, hm, hs]
  · have hm : matchesB env target p = false := by simp [matchesB, henv, hf]
    simp [List.filter_append, hm, hs]
  · have hm : matchesB env target p = false := by simp [matchesB, henv, hf]
    simp [List.filter_append, hm, hs]
  · have hm : matchesB env target p = false := by simp [matchesB, henv, hf]
    simp [List.filter_append, hm, hs]
  · exact hs
  · exact hs

/-- Invariant: every page number is conserved: it sits in the queue, is held
by a worker, or its fetch has completed — and the three multiplicities add
up to the multiplicity among all enqueued pages. -/
def CountInv (s : SysState) : Prop :=
  ∀ v, (pageVals s.queue).count v + (heldPages s.workers).count v + s.doneHist.count v
        = s.enqHist.count v

theorem countInv_step {env : Nat → Option Page} {target : String} {s t : SysState} {l : Label}
    (h : stepFn env target s l = some t) (hs : CountInv s) : CountInv t := by
  rcases step_shape h with
    ⟨w, rfl, hw, hev, rfl⟩ | ⟨w, rfl, hw, hev, rfl⟩ | ⟨w, rfl, hw, hq, rfl⟩ |
    ⟨w, it, rfl, hw, hq, rfl⟩ | ⟨w, rfl, hw, rfl⟩ | ⟨w, p, rfl, hw, rfl⟩ |
    ⟨w, p, rfl, hw, henv, rfl⟩ | ⟨w, p, r, d, rfl, hw, henv, hf, rfl⟩ |
    ⟨w, p, d, rfl, hw, henv, hf, hn, rfl⟩ |
    ⟨w, p, nx, d, rfl, hw, henv, hf, hn, hp, hev, rfl⟩ |
    ⟨w, p, nx, d, rfl, hw, henv, hf, hn, hp, hev, rfl⟩ |
    ⟨w, p, d, rfl, hw, henv, hf, hn, hp, rfl⟩ |
    ⟨rfl, hc, hu, rfl⟩ | ⟨rfl, hc, ha, rfl⟩
  all_goals intro v
  all_goals have hsv := hs v
  all_goals dsimp only
  · have hset := heldPages_count_set .done v hw
    simp only [wPages] at hset; simp at hset; omega
  · have hset := heldPages_count_set .waiting v hw
    simp only [wPages] at hset; simp at hset; omega
  · have hset := heldPages_count_set .done v hw
    simp only [wPages] at hset; simp at hset; omega
  · have hset := heldPages_count_set (.gotItem it) v hw
    have hcons := queue_cons_of_head hq
    simp only [wPages] at hset; simp at hset
    rw [hcons] at hsv
    simp only [pageVals, List.count_append] at hsv
    omega
  · have hset := heldPages_count_set .done v hw
    simp only [wPages, qPages] at hset; simp at hset; omega
  · have hset := heldPages_count_set (.fetching p) v hw
    simp only [wPages, qPages] at hset; simp at hset; omega
  · have hset := heldPages_count_set .idle v hw
    simp only [wPages] at hset; simp at hset
    simp only [List.count_append]
    omega
  · have hset := heldPages_count_set .done v hw
    simp only [wPages] at hset; simp at hset
    simp only [List.count_append]
    omega
  · have hset := heldPages_count_set .done v hw
    simp only [wPages] at hset; simp at hset
    simp only [List.count_append]
    omega
  · have hset := heldPages_count_set .idle v hw
    simp only [wPages] at hset; simp at hset
    simp only [List.count_append]
    omega
  · have hset := heldPages_count_set .idle v hw
    simp only [wPages] at hset; simp at hset
    simp only [pageVals_append, List.count_append, pageVals, qPages, List.append_nil]
    omega
  · have hset := heldPages_count_set .idle v hw
    simp only [wPages] at hset; simp at hset
    simp only [List.count_append]
    omega
  · simp only [pageVals_append, pageVals_replicate_sentinel, List.count_append,
      List.count_nil, List.append_nil]
    omega
  · exact hsv

/-- Invariant: with sequential continuation tokens, every page number is
enqueued at most once and never exceeds the current frontier maximum. -/
def EnqInv (s : SysState) : Prop :=
  s.enqHist.Nodup ∧ ∀ v ∈ s.enqHist, v ≤ s.maxPage

theorem enqInv_step {env : Nat → Option Page} {target : String} {s t : SysState} {l : Label}
    (hseq : ∀ p d nx, env p = some d → d.next = some nx → nx = p + 1)
    (h : stepFn env target s l = some t) (hs : EnqInv s) : EnqInv t := by
  rcases step_shape h with
    ⟨w, rfl, hw, hev, rfl⟩ | ⟨w, rfl, hw, hev, rfl⟩ | ⟨w, rfl, hw, hq, rfl⟩ |
    ⟨w, it, rfl, hw, hq, rfl⟩ | ⟨w, rfl, hw, rfl⟩ | ⟨w, p, rfl, hw, rfl⟩ |
    ⟨w, p, rfl, hw, henv, rfl⟩ | ⟨w, p, r, d, rfl, hw, henv, hf, rfl⟩ |
    ⟨w, p, d, rfl, hw, henv, hf, hn, rfl⟩ |
    ⟨w, p, nx, d, rfl, hw, henv, hf, hn, hp, hev, rfl⟩ |
    ⟨w, p, nx, d, rfl, hw, henv, hf, hn, hp, hev, rfl⟩ |
    ⟨w, p, d, rfl, hw, henv, hf, hn, hp, rfl⟩ |
    ⟨rfl, hc, hu, rfl⟩ | ⟨rfl, hc, ha, rfl⟩
  all_goals first
    | exact hs
    | exact ⟨hs.1, fun v hv => Nat.le_trans (hs.2 v hv) (Nat.le_succ _)⟩
    | skip
  have hnx : nx = s.maxPage + 1 := by
    have := hseq p d nx henv hn
    omega
  simp only [EnqInv]
  constructor
  · simp only [List.nodup_append, List.nodup_cons, List.not_mem_nil, not_false_iff,
      List.nodup_nil, and_true, true_and]
    refine ⟨hs.1, ?_⟩
    intro a ha hmem
    simp only [List.mem_cons, List.not_mem_nil, or_false] at hmem
    subst hmem
    have := hs.2 a ha
    omega
  · intro v hv
    rcases List.mem_append.mp hv with hv | hv
    · exact Nat.le_trans (hs.2 v hv) (Nat.le_succ _)
    · simp only [List.mem_cons, List.not_mem_nil, or_false] at hv
      subst hv
      omega

/-- Invariant: once the coordinator has returned, every worker task is done. -/
def FinInv (s : SysState) : Prop :=
  s.coord = CStatus.finished → s.workers.all (fun x => x = .done) = true

theorem finInv_step {env : Nat → Option Page} {target : String} {s t : SysState} {l : Label}
    (h : stepFn env target s l = some t) (hs : FinInv s) : FinInv t := by
  rcases step_shape h with
    ⟨w, rfl, hw, hev, rfl⟩ | ⟨w, rfl, hw, hev, rfl⟩ | ⟨w, rfl, hw, hq, rfl⟩ |
    ⟨w, it, rfl, hw, hq, rfl⟩ | ⟨w, rfl, hw, rfl⟩ | ⟨w, p, rfl, hw, rfl⟩ |
    ⟨w, p, rfl, hw, henv, rfl⟩ | ⟨w, p, r, d, rfl, hw, henv, hf, rfl⟩ |
    ⟨w, p, d, rfl, hw, henv, hf, hn, rfl⟩ |
    ⟨w, p, nx, d, rfl, hw, henv, hf, hn, hp, hev, rfl⟩ |
    ⟨w, p, nx, d, rfl, hw, henv, hf, hn, hp, hev, rfl⟩ |
    ⟨w, p, d, rfl, hw, henv, hf, hn, hp, rfl⟩ |
    ⟨rfl, hc, hu, rfl⟩ | ⟨rfl, hc, ha, rfl⟩
  all_goals intro hfin
  all_goals first
    | (exact absurd (all_done_get (hs hfin) hw) (by simp))
    | exact ha
    | (exact absurd hfin (by simp))

/-- Transport a step-preserved predicate along a run. -/
theorem run_inv {env : Nat → Option Page} {target : String} {P : SysState → Prop}
    (hstep : ∀ s l t, stepFn env target s l = some t → P s → P t) :
    ∀ ls s t, run env target s ls = some t → P s → P t := by
  intro ls
  induction ls with
  | nil =>
    intro s t h hs
    simp only [run, Option.some.injEq] at h
    exact h ▸ hs
  | cons l ls ih =>
    intro s t h hs
    simp only [run] at h
    cases hst : stepFn env target s l with
    | none => rw [hst] at h; cases h
    | some u =>
      rw [hst] at h
      exact ih u t h (hstep s l u hst hs)

/-- Along any run, `task_done` calls plus still-held items balance the
completed dequeues plus the initially held items. -/
theorem counts_run {env : Nat → Option Page} {target : String} :
    ∀ ls s t, run env target s ls = some t →
      countTaskDone ls + heldCount t.workers = countDequeue ls + heldCount s.workers := by
  intro ls
  induction ls with
  | nil =>
    intro s t h
    simp only [run, Option.some.injEq] at h
    subst h
    rfl
  | cons l ls ih =>
    intro s t h
    simp only [run] at h
    cases hst : stepFn env target s l with
    | none => rw [hst] at h; cases h
    | some u =>
      rw [hst] at h
      have h1 := ih u t h
      have h2 := held_delta_step hst
      simp only [countTaskDone, countDequeue, List.filter_cons] at h1 ⊢
      cases htd : isTaskDone l <;> cases hdq : isDequeue l <;>
        simp [htd, hdq, List.length_cons] at h1 h2 ⊢ <;> omega

theorem initState_unfInv (m n : Nat) : UnfInv (initState m n) := by
  have hheld : heldCount (List.replicate n WStatus.idle) = 0 := by
    induction n with
    | zero => rfl
    | succ k ih => simp [List.replicate, heldCount, wHold, isHolding, ih]
  simp [UnfInv, initState, hheld]

theorem initState_countInv (m n : Nat) : CountInv (initState m n) := by
  intro v
  have hheld : heldPages (List.replicate n WStatus.idle) = [] := by
    induction n with
    | zero => rfl
    | succ k ih => simp [List.replicate, heldPages, wPages, ih]
  simp [initState, hheld, pageVals_map_page]

theorem initState_enqInv (m n : Nat) : EnqInv (initState m n) := by
  constructor
  · exact List.nodup_range _
  · intro v hv
    simp only [initState, List.mem_range] at hv
    simp only [initState]
    omega

theorem initState_writesInv (env : Nat → Option Page) (target : String) (m n : Nat) :
    WritesInv env target (initState m n) := by
  simp [WritesInv, initState]

theorem initState_resultInv (env : Nat → Option Page) (target : String) (m n : Nat) :
    ResultInv env target (initState m n) := by
  intro r hr
  simp [initState] at hr

theorem initState_finInv (m n : Nat) : FinInv (initState m n) := by
  intro h
  simp [initState] at h

/-- Environment of the deadlock scenario: the target is on page 1, page 2
exists and is seeded, page 0 fails to fetch (there is no page 0). -/
def c1Env : Nat → Option Page := fun p =>
  if p = 1 then some { results := [{ name := "X-wing", rating := "1.0" }], next := some 2 }
  else if p = 2 then some { results := [], next := none }
  else none

/-- Schedule: a single worker (max_concurrency = 1) fails page 0, then
finds the target on page 1 and returns — with page 2 still in the queue. -/
def c1Trace : List Label :=
  [.checkPass 0, .dequeue 0 (.page 0), .initiate 0 0, .fetchFail 0 0,
   .checkPass 0, .dequeue 0 (.page 1), .initiate 0 1, .fetchMatch 0 1 "1.0"]

/-- The state after `c1Trace`: the only worker has returned, page 2 was
never dequeued, so `unfinished = 1` and the coordinator still blocks in
`queue.join()`. -/
def c1Stuck : SysState :=
  { maxPage := 2
    queue := [.page 2]
    unfinished := 1
    event := true
    result := some "1.0"
    workers := [.done]
    coord := .joinWait
    enqHist := [0, 1, 2]
    doneHist := [0, 1]
    writes := 1
    errlog := [0] }

/-- C1: the claim states that with a finite `nextPageToken` chain and
`maxConcurrency >= 1` the search always returns and `queue.join()` always
completes.  The code violates this: with `max_concurrency = 1` and the
target on page 1 while page 2 is still enqueued, the matching worker
returns after its own `task_done`, page 2 is never dequeued, `unfinished`
stays at 1, and no transition of the whole system is enabled any more —
`queue.join()` blocks forever, so `find_starship_rating` never returns.
This contradicts the code's own comment ("Wait for the queue to become
empty or the event to be set") and its docstring ("Returns the
hyperdrive_rating if found"). -/
theorem c1_match_leaves_join_stuck :
    run c1Env "x-WING" (initState 2 1) c1Trace = some c1Stuck ∧
    c1Stuck.coord = CStatus.joinWait ∧
    c1Stuck.unfinished ≠ 0 ∧
    ∀ l, stepFn c1Env "x-WING" c1Stuck l = none := by
  refine ⟨by decide, rfl, by decide, ?_⟩
  have hget : ∀ (w : Nat) (st : WStatus), c1Stuck.workers[w]? = some st → st = .done := by
    intro w st h
    cases w with
    | zero =>
      simp only [c1Stuck, List.getElem?_cons_zero, Option.some.injEq] at h
      exact h.symm
    | succ n =>
      simp only [c1Stuck, List.getElem?_cons_succ, List.getElem?_nil] at h
      cases h
  intro l
  cases l with
  | checkExit w =>
    simp only [stepFn]
    rw [if_neg]
    rintro ⟨h1, _⟩
    exact absurd (hget w _ h1) (by decide)
  | checkPass w =>
    simp only [stepFn]
    rw [if_neg]
    rintro ⟨h1, _⟩
    exact absurd (hget w _ h1) (by decide)
  | timeout w =>
    simp only [stepFn]
    rw [if_neg]
    rintro ⟨h1, _⟩
    exact absurd (hget w _ h1) (by decide)
  | dequeue w it =>
    simp only [stepFn]
    rw [if_neg]
    rintro ⟨h1, _⟩
    exact absurd (hget w _ h1) (by decide)
  | sentinelExit w =>
    simp only [stepFn]
    rw [if_neg]
    intro h1
    exact absurd (hget w _ h1) (by simp)
  | initiate w p =>
    simp only [stepFn]
    rw [if_neg]
    intro h1
    exact absurd (hget w _ h1) (by simp)
  | fetchFail w p =>
    simp only [stepFn]
    rw [if_neg]
    intro h1
    exact absurd (hget w _ h1) (by simp)
  | fetchMatch w p r =>
    simp only [stepFn]
    rw [if_neg]
    intro h1
    exact absurd (hget w _ h1) (by simp)
  | fetchExhaust w p =>
    simp only [stepFn]
    rw [if_neg]
    intro h1
    exact absurd (hget w _ h1) (by simp)
  | fetchFrontier w p nx =>
    simp only [stepFn]
    rw [if_neg]
    intro h1
    exact absurd (hget w _ h1) (by simp)
  | fetchSkip w p =>
    simp only [stepFn]
    rw [if_neg]
    intro h1
    exact absurd (hget w _ h1) (by simp)
  | joinRelease =>
    simp only [stepFn]
    rw [if_neg]
    rintro ⟨_, h2⟩
    simp only [c1Stuck] at h2
    cases h2
  | finish =>
    simp only [stepFn]
    rw [if_neg]
    rintro ⟨h1, _⟩
    simp only [c1Stuck] at h1
    cases h1

/-- C7: a fetch failure (lines 36-39) is handled locally: the page's error
is logged, the item is marked done (`unfinished` decremented once), the
signal, the result, the queue and the coordinator are untouched, and the
worker returns to its idle/dequeue state to continue processing. -/
theorem c7_fetch_failure_is_local
    (env : Nat → Option Page) (target : String) (s t : SysState) (w p : Nat)
    (h : stepFn env target s (.fetchFail w p) = some t) :
    env p = none ∧ t.event = s.event ∧ t.result = s.result ∧ t.coord = s.coord ∧
    t.queue = s.queue ∧ t.maxPage = s.maxPage ∧
    t.unfinished = s.unfinished - 1 ∧ t.errlog = s.errlog ++ [p] ∧
    t.workers[w]? = some WStatus.idle := by
  simp only [stepFn] at h
  split at h
  · rename_i hw
    split at h
    · rename_i henv
      simp only [Option.some.injEq] at h
      subst h
      refine ⟨henv, rfl, rfl, rfl, rfl, rfl, rfl, rfl, ?_⟩
      have hlt : w < s.workers.length := (List.getElem?_eq_some.mp hw).1
      exact List.getElem?_set_eq_of_lt _ hlt
    · cases h
  · cases h

/-- C8: the termination signal is monotonic along every run: once observed
`true`, every later state of the same search observes `true`. -/
theorem c8_signal_monotonic
    (env : Nat → Option Page) (target : String) (s t : SysState) (ls : List Label)
    (hrun : run env target s ls = some t) (he : s.event = true) : t.event = true :=
  run_inv (fun _ _ _ h1 hs1 => event_mono_step h1 hs1) ls s t hrun he

/-- C9: in the continuation branch (lines 55-64) the frontier counter
`MAX_PAGE` is advanced unconditionally, while the newly discovered page is
enqueued exactly when the termination signal is observed unset at that
moment. -/
theorem c9_frontier_advances_and_enqueues_only_if_unset
    (env : Nat → Option Page) (target : String) (s t : SysState) (w p nx : Nat)
    (h : stepFn env target s (.fetchFrontier w p nx) = some t) :
    t.maxPage = s.maxPage + 1 ∧
    (s.event = false → t.queue = s.queue ++ [QItem.page nx] ∧ t.enqHist = s.enqHist ++ [nx]) ∧
    (s.event = true → t.queue = s.queue ∧ t.enqHist = s.enqHist) := by
  simp only [stepFn] at h
  split at h
  · split at h
    · cases h
    · split at h
      · split at h
        · rename_i hev
          simp only [Option.some.injEq] at h
          subst h
          exact ⟨rfl, fun hf => absurd hev (by simp [hf]), fun _ => ⟨rfl, rfl⟩⟩
        · rename_i hev
          simp only [Option.some.injEq] at h
          subst h
          refine ⟨rfl, fun _ => ⟨rfl, rfl⟩, fun ht => absurd ht hev⟩
      · cases h
  · cases h

theorem set_preserves_other {ws : List WStatus} {w1 w : Nat} {old st : WStatus} {it : QItem}
    (hw : ws[w1]? = some old)
    (hne : ws[w]? ≠ some (.gotItem it))
    (hafter : (ws.set w1 st)[w]? = some (.gotItem it)) :
    w1 = w ∧ st = .gotItem it := by
  by_cases hww : w1 = w
  · subst hww
    rw [List.getElem?_set_eq_of_lt _ ((List.getElem?_eq_some.mp hw).1)] at hafter
    simp only [Option.some.injEq] at hafter
    exact ⟨rfl, hafter⟩
  · rw [List.getElem?_set_ne hww] at hafter
    exact absurd hafter hne

/-- C4: fetch-initiation discipline.  (1) A fetch of page `p` is initiated
only by a worker already holding `p` — i.e. a page it had dequeued earlier
— and the worker is then fetching it; (2) a worker comes to hold an item
only through its own dequeue step; (3) while a worker holds a dequeued
page, its only possible own step is initiating the fetch of that page, so
it performs no observation of the signal between the dequeue and the
initiation; (4) a frontier step extends the queue only when the signal is
observed unset.  Together: after the signal becomes `true`, no worker
begins a fetch except for a page it had already dequeued without having
observed the signal `true`, and no new page is ever enqueued once the
signal is set. -/
theorem c4_fetch_initiation_discipline (env : Nat → Option Page) (target : String) :
    (∀ s t w p, stepFn env target s (.initiate w p) = some t →
      s.workers[w]? = some (.gotItem (.page p)) ∧ t.workers[w]? = some (.fetching p)) ∧
    (∀ s t l w it, stepFn env target s l = some t →
      s.workers[w]? ≠ some (.gotItem it) → t.workers[w]? = some (.gotItem it) →
      l = .dequeue w it) ∧
    (∀ s t l w p, stepFn env target s l = some t → actor l = some w →
      s.workers[w]? = some (.gotItem (.page p)) → l = .initiate w p) ∧
    (∀ s t w p nx, stepFn env target s (.fetchFrontier w p nx) = some t →
      t.queue ≠ s.queue → s.event = false) := by
  refine ⟨?_, ?_, ?_, ?_⟩
  · intro s t w p h
    simp only [stepFn, Option.ite_none_right_eq_some, Option.some.injEq] at h
    obtain ⟨hw, ht⟩ := h
    subst ht
    refine ⟨hw, ?_⟩
    have hlt : w < s.workers.length := (List.getElem?_eq_some.mp hw).1
    exact List.getElem?_set_eq_of_lt _ hlt
  · intro s t l w it h hne hafter
    rcases step_shape h with
      ⟨w1, rfl, hw, hev, rfl⟩ | ⟨w1, rfl, hw, hev, rfl⟩ | ⟨w1, rfl, hw, hq, rfl⟩ |
      ⟨w1, it1, rfl, hw, hq, rfl⟩ | ⟨w1, rfl, hw, rfl⟩ | ⟨w1, p1, rfl, hw, rfl⟩ |
      ⟨w1, p1, rfl, hw, henv, rfl⟩ | ⟨w1, p1, r1, d1, rfl, hw, henv, hf, rfl⟩ |
      ⟨w1, p1, d1, rfl, hw, henv, hf, hn, rfl⟩ |
      ⟨w1, p1, nx1, d1, rfl, hw, henv, hf, hn, hp, hev, rfl⟩ |
      ⟨w1, p1, nx1, d1, rfl, hw, henv, hf, hn, hp, hev, rfl⟩ |
      ⟨w1, p1, d1, rfl, hw, henv, hf, hn, hp, rfl⟩ |
      ⟨rfl, hc, hu, rfl⟩ | ⟨rfl, hc, ha, rfl⟩
    all_goals first
      | (obtain ⟨rfl, hst⟩ := set_preserves_other hw hne hafter
         cases hst <;> rfl)
      | exact absurd hafter hne
  · intro s t l w p h hact hworker
    rcases step_shape h with
      ⟨w1, rfl, hw, hev, rfl⟩ | ⟨w1, rfl, hw, hev, rfl⟩ | ⟨w1, rfl, hw, hq, rfl⟩ |
      ⟨w1, it1, rfl, hw, hq, rfl⟩ | ⟨w1, rfl, hw, rfl⟩ | ⟨w1, p1, rfl, hw, rfl⟩ |
      ⟨w1, p1, rfl, hw, henv, rfl⟩ | ⟨w1, p1, r1, d1, rfl, hw, henv, hf, rfl⟩ |
      ⟨w1, p1, d1, rfl, hw, henv, hf, hn, rfl⟩ |
      ⟨w1, p1, nx1, d1, rfl, hw, henv, hf, hn, hp, hev, rfl⟩ |
      ⟨w1, p1, nx1, d1, rfl, hw, henv, hf, hn, hp, hev, rfl⟩ |
      ⟨w1, p1, d1, rfl, hw, henv, hf, hn, hp, rfl⟩ |
      ⟨rfl, hc, hu, rfl⟩ | ⟨rfl, hc, ha, rfl⟩
    all_goals try (apply absurd hact; simp only [actor]; intro hx; cases hx; done)
    all_goals simp only [actor, Option.some.injEq] at hact
    all_goals subst hact
    all_goals rw [hworker] at hw
    all_goals simp only [Option.some.injEq] at hw
    all_goals cases hw <;> rfl
  · intro s t w p nx h hq
    simp only [stepFn] at h
    split at h
    · split at h
      · cases h
      · split at h
        · split at h
          · simp only [Option.some.injEq] at h
            subst h
            exact absurd rfl hq
          · rename_i hev
            simp only [Bool.not_eq_true] at hev
            exact hev
        · cases h
    · cases h

theorem heldCount_replicate_idle (n : Nat) :
    heldCount (List.replicate n WStatus.idle) = 0 := by
  induction n with
  | zero => rfl
  | succ k ih => simp [List.replicate, heldCount, wHold, isHolding, ih]

theorem writesPos_step {env : Nat → Option Page} {target : String} {s t : SysState} {l : Label}
    (h : stepFn env target s l = some t)
    (hs : 1 ≤ s.writes → s.result.isSome = true) :
    1 ≤ t.writes → t.result.isSome = true := by
  rcases step_shape h with
    ⟨w, rfl, hw, hev, rfl⟩ | ⟨w, rfl, hw, hev, rfl⟩ | ⟨w, rfl, hw, hq, rfl⟩ |
    ⟨w, it, rfl, hw, hq, rfl⟩ | ⟨w, rfl, hw, rfl⟩ | ⟨w, p, rfl, hw, rfl⟩ |
    ⟨w, p, rfl, hw, henv, rfl⟩ | ⟨w, p, r, d, rfl, hw, henv, hf, rfl⟩ |
    ⟨w, p, d, rfl, hw, henv, hf, hn, rfl⟩ |
    ⟨w, p, nx, d, rfl, hw, henv, hf, hn, hp, hev, rfl⟩ |
    ⟨w, p, nx, d, rfl, hw, henv, hf, hn, hp, hev, rfl⟩ |
    ⟨w, p, d, rfl, hw, henv, hf, hn, hp, rfl⟩ |
    ⟨rfl, hc, hu, rfl⟩ | ⟨rfl, hc, ha, rfl⟩
  all_goals first
    | exact hs
    | (intro _; rfl)

theorem findMatch_some_mem {target : String} {items : List ItemRecord} {r : String}
    (h : findMatch target items = some r) :
    ∃ it, it ∈ items ∧ lowerEq it.name target = true ∧ it.rating = r := by
  simp only [findMatch, Option.map_eq_some'] at h
  obtain ⟨it, hfind, hr⟩ := h
  have hp := List.find?_some hfind
  exact ⟨it, List.mem_of_find?_eq_some hfind, hp, hr⟩

theorem length_le_one_of_nodup_allEq {l : List Nat} (hn : l.Nodup)
    (he : ∀ a ∈ l, ∀ b ∈ l, a = b) : l.length ≤ 1 := by
  match l with
  | [] => simp
  | [a] => simp
  | a :: b :: t =>
    exfalso
    have hab : a = b := he a (by simp) b (by simp)
    rw [List.nodup_cons] at hn
    subst hab
    exact hn.1 (List.mem_cons_self a t)

/-- Environment for a successful search: page 1 has no match and points to
page 2; page 2 holds the target (stored as "X-wing") and is the last page. -/
def c5Env : Nat → Option Page := fun p =>
  if p = 1 then some { results := [{ name := "Ghost", rating := "2.0" }], next := some 2 }
  else if p = 2 then some { results := [{ name := "X-wing", rating := "5.0" }], next := none }
  else none

/-- A complete single-worker schedule of the `c5Env` search for target
"x-WING" (differing from the stored name only in letter case). -/
def c5Trace : List Label :=
  [.checkPass 0, .dequeue 0 (.page 0), .initiate 0 0, .fetchFail 0 0,
   .checkPass 0, .dequeue 0 (.page 1), .initiate 0 1, .fetchSkip 0 1,
   .checkPass 0, .dequeue 0 (.page 2), .initiate 0 2, .fetchMatch 0 2 "5.0",
   .joinRelease, .finish]

/-- The prefix of `c5Trace` just before the match step. -/
def c5Pre : List Label :=
  [.checkPass 0, .dequeue 0 (.page 0), .initiate 0 0, .fetchFail 0 0,
   .checkPass 0, .dequeue 0 (.page 1), .initiate 0 1, .fetchSkip 0 1,
   .checkPass 0, .dequeue 0 (.page 2), .initiate 0 2]

/-- The state reached by `c5Pre`: the worker is fetching page 2. -/
def c5Mid : SysState :=
  { maxPage := 2, queue := [], unfinished := 1, event := false, result := none,
    workers := [.fetching 2], coord := .joinWait, enqHist := [0, 1, 2],
    doneHist := [0, 1], writes := 0, errlog := [0] }

/-- The state right after the match on page 2. -/
def c5AfterMatch : SysState :=
  { maxPage := 2, queue := [], unfinished := 0, event := true, result := some "5.0",
    workers := [.done], coord := .joinWait, enqHist := [0, 1, 2],
    doneHist := [0, 1, 2], writes := 1, errlog := [0] }

/-- The final state of `c5Trace`: the search returned "5.0". -/
def c5Final : SysState :=
  { maxPage := 2, queue := [.sentinel], unfinished := 1, event := true,
    result := some "5.0", workers := [.done], coord := .finished,
    enqHist := [0, 1, 2], doneHist := [0, 1, 2], writes := 1, errlog := [0] }

/-- Environment with no match anywhere and a frontier extension: page 2
points to page 3, page 3 is the last page. -/
def c6Env : Nat → Option Page := fun p =>
  if p = 1 then some { results := [], next := some 2 }
  else if p = 2 then some { results := [], next := some 3 }
  else if p = 3 then some { results := [], next := none }
  else none

/-- A complete single-worker schedule for `c6Env`: the worker advances the
global `MAX_PAGE` to 3 while processing page 2. -/
def c6Trace : List Label :=
  [.checkPass 0, .dequeue 0 (.page 0), .initiate 0 0, .fetchFail 0 0,
   .checkPass 0, .dequeue 0 (.page 1), .initiate 0 1, .fetchSkip 0 1,
   .checkPass 0, .dequeue 0 (.page 2), .initiate 0 2, .fetchFrontier 0 2 3,
   .checkPass 0, .dequeue 0 (.page 3), .initiate 0 3, .fetchExhaust 0 3,
   .joinRelease, .finish]

/-- The final state of `c6Trace`: the search returned not-found, and the
module global `MAX_PAGE` is now 3. -/
def c6Final : SysState :=
  { maxPage := 3, queue := [.sentinel], unfinished := 1, event := true,
    result := none, workers := [.done], coord := .finished,
    enqHist := [0, 1, 2, 3], doneHist := [0, 1, 2, 3], writes := 0, errlog := [0] }

/-- Environment where the target occurs on two pages (stored as "A-wing"
on page 1 and "a-WING" on page 2). -/
def c2Env : Nat → Option Page := fun p =>
  if p = 1 then some { results := [{ name := "A-wing", rating := "1.0" }], next := some 2 }
  else if p = 2 then some { results := [{ name := "a-WING", rating := "9.9" }], next := none }
  else none

/-- Two workers fetch pages 1 and 2 concurrently; worker 0's match writes
the result and sets the signal while worker 1 is still mid-fetch. -/
def c2Pre : List Label :=
  [.checkPass 0, .dequeue 0 (.page 0), .initiate 0 0, .fetchFail 0 0,
   .checkPass 0, .dequeue 0 (.page 1), .initiate 0 1,
   .checkPass 1, .dequeue 1 (.page 2), .initiate 1 2,
   .fetchMatch 0 1 "1.0"]

/-- State after `c2Pre`: the signal is set, the slot holds "1.0", and
worker 1 is still fetching page 2. -/
def c2Mid : SysState :=
  { maxPage := 2, queue := [], unfinished := 1, event := true, result := some "1.0",
    workers := [.done, .fetching 2], coord := .joinWait, enqHist := [0, 1, 2],
    doneHist := [0, 1], writes := 1, errlog := [0] }

/-- `c2Pre` followed by worker 1's match on page 2: a second write. -/
def c2Trace : List Label :=
  [.checkPass 0, .dequeue 0 (.page 0), .initiate 0 0, .fetchFail 0 0,
   .checkPass 0, .dequeue 0 (.page 1), .initiate 0 1,
   .checkPass 1, .dequeue 1 (.page 2), .initiate 1 2,
   .fetchMatch 0 1 "1.0", .fetchMatch 1 2 "9.9"]

/-- Final state of `c2Trace`: the slot was written twice. -/
def c2Final : SysState :=
  { maxPage := 2, queue := [], unfinished := 0, event := true, result := some "9.9",
    workers := [.done, .done], coord := .joinWait, enqHist := [0, 1, 2],
    doneHist := [0, 1, 2], writes := 2, errlog := [0] }

/-- A worker that dequeued page 1 before the signal was set, about to
resume while the signal is now set. -/
def c4s : SysState :=
  { maxPage := 2, queue := [], unfinished := 1, event := true, result := none,
    workers := [.gotItem (.page 1)], coord := .joinWait, enqHist := [0, 1, 2],
    doneHist := [0, 2], writes := 0, errlog := [0] }

/-- `c4s` after the worker initiates the fetch of its held page. -/
def c4t : SysState :=
  { maxPage := 2, queue := [], unfinished := 1, event := true, result := none,
    workers := [.fetching 1], coord := .joinWait, enqHist := [0, 1, 2],
    doneHist := [0, 2], writes := 0, errlog := [0] }

/-- A waiting worker with page 2 at the head of the queue. -/
def c4u : SysState :=
  { maxPage := 2, queue := [.page 2], unfinished := 2, event := true, result := none,
    workers := [.waiting], coord := .joinWait, enqHist := [0, 1, 2],
    doneHist := [0, 1], writes := 0, errlog := [0] }

/-- `c4u` after the dequeue hands page 2 to the worker. -/
def c4v : SysState :=
  { maxPage := 2, queue := [], unfinished := 2, event := true, result := none,
    workers := [.gotItem (.page 2)], coord := .joinWait, enqHist := [0, 1, 2],
    doneHist := [0, 1], writes := 0, errlog := [0] }

/-- A worker fetching the frontier page 2 of `c6Env` with the signal unset. -/
def c9s : SysState :=
  { maxPage := 2, queue := [], unfinished := 1, event := false, result := none,
    workers := [.fetching 2], coord := .joinWait, enqHist := [0, 1, 2],
    doneHist := [0, 1], writes := 0, errlog := [0] }

/-- `c9s` after the frontier step: `MAX_PAGE` advanced, page 3 enqueued. -/
def c9t : SysState :=
  { maxPage := 3, queue := [.page 3], unfinished := 1, event := false, result := none,
    workers := [.idle], coord := .joinWait, enqHist := [0, 1, 2, 3],
    doneHist := [0, 1, 2], writes := 0, errlog := [0] }

/-- A worker fetching page 0 (which fails under `c1Env`). -/
def c7s : SysState :=
  { maxPage := 2, queue := [.page 1, .page 2], unfinished := 3, event := false,
    result := none, workers := [.fetching 0], coord := .joinWait,
    enqHist := [0, 1, 2], doneHist := [], writes := 0, errlog := [] }

/-- `c7s` after the failed fetch of page 0 is handled. -/
def c7t : SysState :=
  { maxPage := 2, queue := [.page 1, .page 2], unfinished := 2, event := false,
    result := none, workers := [.idle], coord := .joinWait,
    enqHist := [0, 1, 2], doneHist := [0], writes := 0, errlog := [0] }

/-- An idle worker observing the already-set signal. -/
def c8s : SysState :=
  { maxPage := 2, queue := [], unfinished := 0, event := true, result := some "1.0",
    workers := [.idle], coord := .joinWait, enqHist := [0, 1, 2],
    doneHist := [0, 1, 2], writes := 1, errlog := [] }

/-- `c8s` after the worker exits at the loop check. -/
def c8t : SysState :=
  { maxPage := 2, queue := [], unfinished := 0, event := true, result := some "1.0",
    workers := [.done], coord := .joinWait, enqHist := [0, 1, 2],
    doneHist := [0, 1, 2], writes := 1, errlog := [] }

/-- A waiting worker with an empty queue, about to time out. -/
def c10s : SysState :=
  { maxPage := 2, queue := [], unfinished := 0, event := false, result := none,
    workers := [.waiting], coord := .joinWait, enqHist := [0, 1, 2],
    doneHist := [0, 1, 2], writes := 0, errlog := [0] }

/-- `c10s` after the timeout: the worker exits, nothing else changes. -/
def c10t : SysState :=
  { maxPage := 2, queue := [], unfinished := 0, event := false, result := none,
    workers := [.done], coord := .joinWait, enqHist := [0, 1, 2],
    doneHist := [0, 1, 2], writes := 0, errlog := [0] }

/-- C2 counterexample: the claim says the ResultSlot is written at most
once and only by the worker whose `set()` transitions the signal from
false to true because of a match.  Under `c2Env` (target on two pages) a
valid interleaving writes the slot twice: worker 1, already mid-fetch when
worker 0's match set the signal, finds its own match and writes again
while the signal is already `true` — so its `set()` is not a false→true
transition. -/
theorem c2_two_writes_and_write_after_signal :
    run c2Env "a-wing" (initState 2 2) c2Trace = some c2Final ∧
    c2Final.writes = 2 ∧
    run c2Env "a-wing" (initState 2 2) c2Pre = some c2Mid ∧
    c2Mid.event = true ∧
    stepFn c2Env "a-wing" c2Mid (.fetchMatch 1 2 "9.9") = some c2Final := by
  exact ⟨by decide, rfl, by decide, rfl, by decide⟩

/-- C2 (amended): every ResultSlot write is performed by a worker that
found a case-insensitive match on its fetched page (the stored value is
always the scan result of some page), and when continuation tokens are
sequential (`next` of page `p` is `p+1`) and at most one page contains a
match, the slot is written at most once.  The writer need not be the
worker whose `set()` transitions the signal false→true: the signal may
already be set (by exhaustion or an earlier match) when the write occurs. -/
theorem c2_write_discipline
    (env : Nat → Option Page) (target : String) (m n : Nat) (ls : List Label)
    (sf : SysState)
    (hrun : run env target (initState m n) ls = some sf)
    (hseq : ∀ p d nx, env p = some d → d.next = some nx → nx = p + 1)
    (huniq : ∀ p q, matchesB env target p = true → matchesB env target q = true → p = q) :
    sf.writes ≤ 1 ∧
    sf.writes = (sf.doneHist.filter (fun p => matchesB env target p)).length ∧
    (∀ r, sf.result = some r → ∃ p d, env p = some d ∧ findMatch target d.results = some r) := by
  have hW : WritesInv env target sf :=
    run_inv (fun _ _ _ h hs => writesInv_step h hs) ls _ _ hrun
      (initState_writesInv env target m n)
  have hC : CountInv sf :=
    run_inv (fun _ _ _ h hs => countInv_step h hs) ls _ _ hrun (initState_countInv m n)
  have hE : EnqInv sf :=
    run_inv (fun _ _ _ h hs => enqInv_step hseq h hs) ls _ _ hrun (initState_enqInv m n)
  have hR : ResultInv env target sf :=
    run_inv (fun _ _ _ h hs => resultInv_step h hs) ls _ _ hrun
      (initState_resultInv env target m n)
  refine ⟨?_, hW, hR⟩
  have hcount : ∀ v, sf.doneHist.count v ≤ 1 := by
    intro v
    have h1 := hC v
    have h2 := List.nodup_iff_count_le_one.mp hE.1 v
    omega
  have hnd : sf.doneHist.Nodup := List.nodup_iff_count_le_one.mpr hcount
  have hndf : (sf.doneHist.filter (fun p => matchesB env target p)).Nodup :=
    hnd.filter _
  have hall : ∀ a ∈ sf.doneHist.filter (fun p => matchesB env target p),
      ∀ b ∈ sf.doneHist.filter (fun p => matchesB env target p), a = b := by
    intro a ha b hb
    have ha2 := (List.mem_filter.mp ha).2
    have hb2 := (List.mem_filter.mp hb).2
    exact huniq a b ha2 hb2
  have hle := length_le_one_of_nodup_allEq hndf hall
  have hWe : sf.writes = (sf.doneHist.filter (fun p => matchesB env target p)).length := hW
  omega

/-- C3: over any complete search (the coordinator returned), the number of
`task_done` calls equals the number of completed dequeues — every dequeued
item, on every exit path of its processing, is marked done exactly once —
and each `task_done` step finishes exactly one held item. -/
theorem c3_taskDone_exactly_once_per_dequeue
    (env : Nat → Option Page) (target : String) (m n : Nat) (ls : List Label)
    (sf : SysState)
    (hrun : run env target (initState m n) ls = some sf)
    (hfin : sf.coord = CStatus.finished) :
    countTaskDone ls = countDequeue ls ∧
    (∀ s l t, stepFn env target s l = some t → isTaskDone l = true →
      heldCount t.workers + 1 = heldCount s.workers) := by
  constructor
  · have hc := counts_run ls (initState m n) sf hrun
    have hFin : FinInv sf :=
      run_inv (fun _ _ _ h hs => finInv_step h hs) ls _ _ hrun (initState_finInv m n)
    have hdone := heldCount_all_done (hFin hfin)
    have hinit : heldCount (initState m n).workers = 0 := heldCount_replicate_idle n
    omega
  · intro s l t h htd
    have hd := held_delta_step h
    have hq : isDequeue l = false := by
      cases l <;> simp_all [isTaskDone, isDequeue]
    rw [htd, hq] at hd
    simp only [cond_true, cond_false] at hd
    omega

/-- C3 witness: the complete `c5Trace` search balances its 3 dequeues with
3 `task_done` calls. -/
theorem c3_witness :
    countTaskDone c5Trace = countDequeue c5Trace ∧
    (∀ s l t, stepFn c5Env "x-WING" s l = some t → isTaskDone l = true →
      heldCount t.workers + 1 = heldCount s.workers) :=
  c3_taskDone_exactly_once_per_dequeue c5Env "x-WING" 2 1 c5Trace c5Final
    (by decide) (by decide)

/-- C5: over any complete search, if some fetched page's data contains an
item whose lowercased name equals the lowercased target, the returned
result is the rating of such a matching item of some page; and if no page
of the environment contains a match, the search returns `none`.  A target
differing from the stored name only in letter case matches, since the
comparison lowercases both sides character by character. -/
theorem c5_returns_rating_iff_matched
    (env : Nat → Option Page) (target : String) (m n : Nat) (ls : List Label)
    (sf : SysState)
    (hrun : run env target (initState m n) ls = some sf)
    (_hret : sf.coord = CStatus.finished) :
    (sf.doneHist.filter (fun p => matchesB env target p) ≠ [] →
      ∃ r p d it, sf.result = some r ∧ env p = some d ∧ it ∈ d.results ∧
        it.name.data.map Char.toLower = target.data.map Char.toLower ∧ it.rating = r) ∧
    ((∀ p d, env p = some d → findMatch target d.results = none) → sf.result = none) := by
  have hW : WritesInv env target sf :=
    run_inv (fun _ _ _ h hs => writesInv_step h hs) ls _ _ hrun
      (initState_writesInv env target m n)
  have hR : ResultInv env target sf :=
    run_inv (fun _ _ _ h hs => resultInv_step h hs) ls _ _ hrun
      (initState_resultInv env target m n)
  have hP : 1 ≤ sf.writes → sf.result.isSome = true :=
    run_inv (P := fun s => 1 ≤ s.writes → s.result.isSome = true)
      (fun _ _ _ h hs => writesPos_step h hs) ls _ _ hrun
      (by intro hx; simp [initState] at hx)
  constructor
  · intro hne
    have hlen : 0 < (sf.doneHist.filter (fun p => matchesB env target p)).length :=
      List.length_pos.mpr hne
    have hWe : sf.writes = (sf.doneHist.filter (fun p => matchesB env target p)).length := hW
    have hw1 : 1 ≤ sf.writes := by omega
    obtain ⟨r, hr⟩ := Option.isSome_iff_exists.mp (hP hw1)
    obtain ⟨p, d, henv, hfm⟩ := hR r hr
    obtain ⟨it, hmem, hlow, hrat⟩ := findMatch_some_mem hfm
    refine ⟨r, p, d, it, hr, henv, hmem, ?_, hrat⟩
    simpa [lowerEq] using hlow
  · intro hnone
    cases hres : sf.result with
    | none => rfl
    | some r =>
      obtain ⟨p, d, henv, hfm⟩ := hR r hres
      rw [hnone p d henv] at hfm
      cases hfm

/-- C5 witness: searching `c5Env` for "x-WING" (stored name "X-wing")
returns a rating of a case-insensitively matching item. -/
theorem c5_witness :
    ∃ r p d it, c5Final.result = some r ∧ c5Env p = some d ∧ it ∈ d.results ∧
      it.name.data.map Char.toLower = "x-WING".data.map Char.toLower ∧ it.rating = r :=
  (c5_returns_rating_iff_matched c5Env "x-WING" 2 1 c5Trace c5Final
    (by decide) (by decide)).1 (by decide)

/-- C6 (amended): the TerminationSignal, ResultSlot and WorkQueue are
created fresh at each call — the initial state of every search has the
signal unset, the slot empty, and the queue freshly seeded with pages
`0 .. MAX_PAGE` — but the frontier maximum `MAX_PAGE` is a module-level
global (`global MAX_PAGE` in `worker`), so its value mutated during one
search persists and determines the seeding of the next call. -/
theorem c6_fresh_except_global_frontier (m n : Nat) :
    (initState m n).event = false ∧
    (initState m n).result = none ∧
    (initState m n).queue = (List.range (m + 1)).map QItem.page ∧
    (initState m n).unfinished = m + 1 ∧
    (initState m n).workers = List.replicate n WStatus.idle :=
  ⟨rfl, rfl, rfl, rfl, rfl⟩

/-- C6 counterexample: the claim says no state mutated during one search
is observable by a subsequent call.  But a complete search over `c6Env`
(started with the module default `MAX_PAGE = 2`) ends with `MAX_PAGE = 3`,
and a subsequent call therefore seeds pages 0..3 (four items) instead of
0..2 (three items): the mutation alters the next call's behaviour. -/
theorem c6_maxPage_leaks_across_calls :
    run c6Env "Falcon" (initState 2 1) c6Trace = some c6Final ∧
    c6Final.coord = CStatus.finished ∧
    c6Final.maxPage = 3 ∧
    (initState c6Final.maxPage 1).queue =
      [QItem.page 0, QItem.page 1, QItem.page 2, QItem.page 3] ∧
    (initState 2 1).queue = [QItem.page 0, QItem.page 1, QItem.page 2] := by
  exact ⟨by decide, rfl, rfl, by decide, by decide⟩

/-- C10: a timed-out dequeue performs no `markDone` (the counter, the
queue and the completion history are untouched and the worker just
exits); across any run from a fresh search state the number of
`task_done` calls never exceeds the number of completed dequeues; and at
every `task_done` step the unfinished-task counter is at least 1, so
`task_done` never raises the too-many-calls error. -/
theorem c10_timeout_no_markDone_and_no_overrun
    (env : Nat → Option Page) (target : String) :
    (∀ s t w, stepFn env target s (.timeout w) = some t →
      t.unfinished = s.unfinished ∧ t.queue = s.queue ∧ t.doneHist = s.doneHist ∧
      t.workers[w]? = some WStatus.done) ∧
    (∀ m n ls sf, run env target (initState m n) ls = some sf →
      countTaskDone ls ≤ countDequeue ls) ∧
    (∀ m n ls s l t, run env target (initState m n) ls = some s →
      isTaskDone l = true → stepFn env target s l = some t → 1 ≤ s.unfinished) := by
  refine ⟨?_, ?_, ?_⟩
  · intro s t w h
    simp only [stepFn, Option.ite_none_right_eq_some, Option.some.injEq] at h
    obtain ⟨⟨hw, hq⟩, ht⟩ := h
    subst ht
    exact ⟨rfl, rfl, rfl, List.getElem?_set_eq_of_lt _ ((List.getElem?_eq_some.mp hw).1)⟩
  · intro m n ls sf hrun
    have hc := counts_run ls _ _ hrun
    have hinit : heldCount (initState m n).workers = 0 := heldCount_replicate_idle n
    omega
  · intro m n ls s l t hrun htd hstep
    have hU : UnfInv s :=
      run_inv (fun _ _ _ h hs => unfInv_step h hs) ls _ _ hrun (initState_unfInv m n)
    have hUe : s.unfinished = s.queue.length + heldCount s.workers := hU
    rcases step_shape hstep with
      ⟨w, rfl, hw, hev, rfl⟩ | ⟨w, rfl, hw, hev, rfl⟩ | ⟨w, rfl, hw, hq, rfl⟩ |
      ⟨w, it, rfl, hw, hq, rfl⟩ | ⟨w, rfl, hw, rfl⟩ | ⟨w, p, rfl, hw, rfl⟩ |
      ⟨w, p, rfl, hw, henv, rfl⟩ | ⟨w, p, r, d, rfl, hw, henv, hf, rfl⟩ |
      ⟨w, p, d, rfl, hw, henv, hf, hn, rfl⟩ |
      ⟨w, p, nx, d, rfl, hw, henv, hf, hn, hp, hev, rfl⟩ |
      ⟨w, p, nx, d, rfl, hw, henv, hf, hn, hp, hev, rfl⟩ |
      ⟨w, p, d, rfl, hw, henv, hf, hn, hp, rfl⟩ |
      ⟨rfl, hc, hu, rfl⟩ | ⟨rfl, hc, ha, rfl⟩
    all_goals first
      | (have hh := holding_one_le hw rfl; omega)
      | (exact absurd htd (by simp [isTaskDone]))

/-- C10 witness: a concrete timeout step changes nothing but the worker,
the complete `c5Trace` run satisfies the count bound, and the `task_done`
of the concrete match step finds `unfinished = 1 ≥ 1`. -/
theorem c10_witness :
    (c10t.unfinished = c10s.unfinished ∧ c10t.queue = c10s.queue ∧
      c10t.doneHist = c10s.doneHist ∧ c10t.workers[0]? = some WStatus.done) ∧
    countTaskDone c5Trace ≤ countDequeue c5Trace ∧
    1 ≤ c5Mid.unfinished := by
  have h := c10_timeout_no_markDone_and_no_overrun c5Env "x-WING"
  refine ⟨h.1 c10s c10t 0 (by decide), h.2.1 2 1 c5Trace c5Final (by decide), ?_⟩
  exact h.2.2 2 1 c5Pre c5Mid (.fetchMatch 0 2 "5.0") c5AfterMatch (by decide) rfl (by decide)

/-- C2 amended-claim witness: the unique-match search `c5Trace` writes the
slot at most once. -/
theorem c2_witness :
    c5Final.writes ≤ 1 ∧
    c5Final.writes = (c5Final.doneHist.filter (fun p => matchesB c5Env "x-WING" p)).length ∧
    (∀ r, c5Final.result = some r →
      ∃ p d, c5Env p = some d ∧ findMatch "x-WING" d.results = some r) := by
  apply c2_write_discipline c5Env "x-WING" 2 1 c5Trace c5Final (by decide)
  · intro p d nx hp hn
    simp only [c5Env] at hp
    split_ifs at hp with h1 h2
    · subst h1
      simp only [Option.some.injEq] at hp
      subst hp
      cases hn
      rfl
    · subst h2
      simp only [Option.some.injEq] at hp
      subst hp
      cases hn
  · intro p q hp hq
    have key : ∀ v, matchesB c5Env "x-WING" v = true → v = 2 := by
      intro v hv
      by_cases h1 : v = 1
      · subst h1
        revert hv
        decide
      by_cases h2 : v = 2
      · exact h2
      · exfalso
        have hnone : c5Env v = none := by simp [c5Env, h1, h2]
        simp [matchesB, hnone] at hv
    rw [key p hp, key q hq]

/-- C4 witness: a worker holding dequeued page 1 initiates its fetch while
the signal is already set; a dequeue step is the step that makes a worker
hold an item; the only own step of a worker holding a page is the
initiation; a concrete frontier step that extends the queue has the signal
unset. -/
theorem c4_witness :
    (c4s.workers[0]? = some (.gotItem (.page 1)) ∧ c4t.workers[0]? = some (.fetching 1)) ∧
    Label.dequeue 0 (QItem.page 2) = Label.dequeue 0 (QItem.page 2) ∧
    Label.initiate 0 1 = Label.initiate 0 1 ∧
    c9s.event = false := by
  refine ⟨(c4_fetch_initiation_discipline c1Env "x-WING").1 c4s c4t 0 1 (by decide), ?_, ?_, ?_⟩
  · exact (c4_fetch_initiation_discipline c1Env "x-WING").2.1 c4u c4v
      (.dequeue 0 (.page 2)) 0 (.page 2) (by decide) (by decide) (by decide)
  · exact (c4_fetch_initiation_discipline c1Env "x-WING").2.2.1 c4s c4t
      (.initiate 0 1) 0 1 (by decide) rfl (by decide)
  · exact (c4_fetch_initiation_discipline c6Env "Falcon").2.2.2 c9s c9t 0 2 3
      (by decide) (by decide)

/-- C7 witness: the concrete failed fetch of page 0 under `c1Env`. -/
theorem c7_witness :
    c1Env 0 = none ∧ c7t.event = c7s.event ∧ c7t.result = c7s.result ∧
    c7t.coord = c7s.coord ∧ c7t.queue = c7s.queue ∧ c7t.maxPage = c7s.maxPage ∧
    c7t.unfinished = c7s.unfinished - 1 ∧ c7t.errlog = c7s.errlog ++ [0] ∧
    c7t.workers[0]? = some WStatus.idle :=
  c7_fetch_failure_is_local c1Env "x-WING" c7s c7t 0 0 (by decide)

/-- C8 witness: one step after a state with the signal set still observes
it set. -/
theorem c8_witness : c8t.event = true :=
  c8_signal_monotonic c1Env "x-WING" c8s c8t [.checkExit 0] (by decide) rfl

/-- C9 witness: the concrete frontier step on page 2 of `c6Env`. -/
theorem c9_witness :
    c9t.maxPage = c9s.maxPage + 1 ∧
    (c9s.event = false → c9t.queue = c9s.queue ++ [QItem.page 3] ∧
      c9t.enqHist = c9s.enqHist ++ [3]) ∧
    (c9s.event = true → c9t.queue = c9s.queue ∧ c9t.enqHist = c9s.enqHist) :=
  c9_frontier_advances_and_enqueues_only_if_unset c6Env "Falcon" c9s c9t 0 2 3 (by decide)

/-- C6 amended-claim witness at the module defaults. -/
theorem c6_witness :
    (initState 2 5).event = false ∧
    (initState 2 5).result = none ∧
    (initState 2 5).queue = (List.range 3).map QItem.page ∧
    (initState 2 5).unfinished = 3 ∧
    (initState 2 5).workers = List.replicate 5 WStatus.idle :=
  c6_fresh_except_global_frontier 2 5
